import Mathlib

/-!
Verification of the flame-graph / top-table JSON handlers of
`internal/driver/webjson.go` (snappyflow/pprof).

The file shallowly embeds the code of `webjson.go`:

* the graph-to-tree transformation performed by `flamegraphData`
  (two passes over the node list, an in-place swap partition that moves
  root nodes to a contiguous front of the slice, an identity node map,
  and a synthetic root node), and
* the HTTP handlers `topData`, `flamegraphData` and `dotsvg`, with the
  `net/http` response-writer semantics they rely on (in Go a second
  `WriteHeader` call is ignored once the header has been sent, and
  `http.Error` after a successful `WriteHeader(200)` merely appends its
  message to the body).

External collaborators that are not under `src/` (the report generator
`makeReport`, `report.TextItems`, `report.GetDOT`, the value formatter
`measurement.Percentage`, `graph.ShortenFunctionName`, the JSON encoder
and the `dot` renderer) enter as parameters of the embedded handlers, or
as definitions explicitly marked as modelled from the spec.

Go treeNode pointers are represented by indices: the i-th graph node
produces the i-th entry of a tree-node store, which is exactly the
identity `nodeMap` the Go code builds, and child links hold indices into
that store.
-/

/-- A graph node as consumed by `flamegraphData`: the fields of
`graph.Node` the handler reads.  `name` is `Info.Name`, `fullName` is
`Info.PrintableName()`, `cum` is `CumValue()`.  `inEdges` and `outEdges`
carry the keys of the Go maps `n.In` and `n.Out` as node indices, in
some iteration order (Go map iteration order is unspecified; see
`GraphEquiv` below). -/
structure GNode where
  name : String
  fullName : String
  cum : Int
  inEdges : List Nat
  outEdges : List Nat
deriving Inhabited, Repr, DecidableEq

/-- Node lookup with the `Inhabited` default out of range (Go pointers are
always in range; out-of-range defaults only keep the embedding total). -/
def gnodeAt (g : List GNode) (i : Nat) : GNode := g.getD i default

/-- `len(n.In) == 0`, the root test of the loop in `flamegraphData`. -/
def isRoot (n : GNode) : Bool := n.inEdges.isEmpty

/-- The configuration data `flamegraphData` receives from
`report.GetDOT` together with the external formatters it calls:
`formatValue` is `config.FormatValue`, `total` is `config.Total`,
`percentage` is `measurement.Percentage` and `shorten` is
`graph.ShortenFunctionName` — all external to `src/`, hence parameters. -/
structure FlameCfg where
  total : Int
  formatValue : Int → String
  percentage : Int → Int → String
  shorten : String → String

/-- The `treeNode` struct of `webjson.go`; `Children` holds store
indices standing for the Go child pointers. -/
structure TreeNode where
  Name : String
  FullName : String
  Cum : Int
  CumFormat : String
  Percent : String
  Children : List Nat
deriving Inhabited, Repr, DecidableEq

/-- ASCII whitespace, the characters `strings.TrimSpace` strips that can
occur in formatter output. -/
def isSpaceChar (c : Char) : Bool :=
  c = ' ' || c = '\t' || c = '\n' || c = '\x0b' || c = '\x0c' || c = '\r'

/-- Shallow embedding of `strings.TrimSpace`: drop whitespace from the
front, then from the back (via reverse). -/
def trimSpace (s : String) : String :=
  ⟨(((s.data.dropWhile isSpaceChar).reverse.dropWhile isSpaceChar).reverse)⟩

/-- Modelled from the spec: `measurement.Percentage`, the external Value
Formatter, is not under `src/`.  The spec requires only that it renders a
percentage string and that `Total = 0` is treated as 0%.  We render an
integer percentage right-aligned in a six-character field, mirroring the
fixed-width (whitespace-padded) output of the real formatter. -/
def specPercentage (value total : Int) : String :=
  let ratio : Nat := if total = 0 then 0 else value.natAbs * 100 / total.natAbs
  let s := toString ratio ++ "%"
  String.mk (List.replicate (6 - s.length) ' ') ++ s

/-- Modelled from the spec: a concrete Value Formatter instance used for
witnesses (`config.FormatValue` itself is external to `src/`). -/
def specFormatValue (v : Int) : String := toString v

/-- A concrete configuration used by witnesses; `shorten` is the
identity since the spec pins nothing about the shortening itself. -/
def specCfg (total : Int) : FlameCfg :=
  ⟨total, specFormatValue, specPercentage, fun s => s⟩

/-- The mutable state of the first loop of `flamegraphData`: the `nodes`
slice (as store indices), the count of roots moved to the front, and the
accumulated root value. -/
structure Pass1State where
  nodes : List Nat
  nroots : Nat
  rootValue : Int
deriving Repr, DecidableEq

/-- The Go parallel assignment
`nodes[a], nodes[b] = nodes[b], nodes[a]`. -/
def swapIdx (l : List Nat) (a b : Nat) : List Nat :=
  let x := l.getD a 0
  let y := l.getD b 0
  (l.set a y).set b x

/-- One iteration of the first loop of `flamegraphData` at node index
`i`: append the new tree node, and if the graph node has no inbound
edges, swap it into the next root slot, count it and add its value. -/
def pass1Step (g : List GNode) (st : Pass1State) (i : Nat) : Pass1State :=
  let n := gnodeAt g i
  let nodes := st.nodes ++ [i]
  if isRoot n then
    { nodes := swapIdx nodes st.nroots (nodes.length - 1)
      nroots := st.nroots + 1
      rootValue := st.rootValue + n.cum }
  else
    { st with nodes := nodes }

/-- The first loop of `flamegraphData` over the whole node slice. -/
def pass1 (g : List GNode) : Pass1State :=
  (List.range g.length).foldl (pass1Step g) ⟨[], 0, 0⟩

/-- The tree node allocated for one graph node in the first loop
(children are still empty there). -/
def mkTreeNode (cfg : FlameCfg) (n : GNode) : TreeNode :=
  { Name := cfg.shorten n.fullName
    FullName := n.fullName
    Cum := n.cum
    CumFormat := cfg.formatValue n.cum
    Percent := trimSpace (cfg.percentage n.cum cfg.total)
    Children := [] }

/-- `node.Children = append(node.Children, nodeMap[child])`; the identity
node map sends the child graph node to its own index. -/
def addChild (t : TreeNode) (c : Nat) : TreeNode :=
  { t with Children := t.Children ++ [c] }

/-- The inner loop of the second pass over one node's outbound edges. -/
def addChildren (t : TreeNode) (cs : List Nat) : TreeNode :=
  cs.foldl addChild t

/-- The second loop of `flamegraphData`: populate the child links of
every allocated tree node from its outbound edges. -/
def pass2 (g : List GNode) (store : List TreeNode) : List TreeNode :=
  List.zipWith (fun n t => addChildren t n.outEdges) g store

/-- The result of the tree construction: the synthetic root plus the
store of per-graph-node tree nodes (indices in `Children` point into
`store`). -/
structure FlameTree where
  root : TreeNode
  store : List TreeNode
deriving Repr, DecidableEq

/-- Total number of tree nodes built: one per graph node plus the
synthetic root. -/
def FlameTree.nodeCount (t : FlameTree) : Nat := t.store.length + 1

/-- The tree construction of `flamegraphData` (lines 47–88 of
`webjson.go`): pass 1 with the swap partition, pass 2 for child links,
then the synthetic root whose children are the slice `nodes[0:nroots]`. -/
def flamegraphTree (cfg : FlameCfg) (g : List GNode) : FlameTree :=
  let st := pass1 g
  let store := pass2 g (g.map (mkTreeNode cfg))
  { root :=
      { Name := "root"
        FullName := "root"
        Cum := st.rootValue
        CumFormat := cfg.formatValue st.rootValue
        Percent := trimSpace (cfg.percentage st.rootValue cfg.total)
        Children := st.nodes.take st.nroots }
    store := store }

/-- The indices of the root nodes (empty inbound-edge set) among the
first `k` graph nodes, in graph order. -/
def rootIdsUpTo (g : List GNode) (k : Nat) : List Nat :=
  (List.range k).filter (fun i => isRoot (gnodeAt g i))

/-- All root-node indices of the graph. -/
def rootIds (g : List GNode) : List Nat := rootIdsUpTo g g.length

/-- Sum of the cumulative values of the roots among the first `k`
graph nodes. -/
def rootSumUpTo (g : List GNode) (k : Nat) : Int :=
  ((rootIdsUpTo g k).map (fun i => (gnodeAt g i).cum)).sum

/-- Sum of the cumulative values of all root nodes. -/
def rootSum (g : List GNode) : Int := rootSumUpTo g g.length

/-! ### Helper lemmas about list indexing and the swap -/

theorem getD_append_length {α : Type} (l₁ : List α) (a : α) (l₂ : List α) (d : α) :
    (l₁ ++ a :: l₂).getD l₁.length d = a := by
  rw [List.getD_append_right _ _ _ _ (Nat.le_refl _), Nat.sub_self]
  rfl

theorem set_append_length {α : Type} (l₁ : List α) (a : α) (l₂ : List α) (b : α) :
    (l₁ ++ a :: l₂).set l₁.length b = l₁ ++ b :: l₂ := by
  rw [List.set_append_right _ _ (Nat.le_refl _), Nat.sub_self]
  rfl

theorem swapIdx_last (R : List Nat) (k : Nat) :
    swapIdx (R ++ [k]) R.length ((R ++ [k]).length - 1) = R ++ [k] := by
  have hb : (R ++ [k]).length - 1 = R.length := by simp
  have hx : (R ++ [k]).getD R.length 0 = k := getD_append_length R k [] 0
  simp only [swapIdx, hb, hx, set_append_length R k []]

theorem swapIdx_partition (R N₂ : List Nat) (y k : Nat) :
    swapIdx (R ++ y :: (N₂ ++ [k])) R.length ((R ++ y :: (N₂ ++ [k])).length - 1)
      = R ++ k :: (N₂ ++ [y]) := by
  have hb : (R ++ y :: (N₂ ++ [k])).length - 1 = (R ++ y :: N₂).length := by
    simp
  have hshape : R ++ y :: (N₂ ++ [k]) = (R ++ y :: N₂) ++ k :: [] := by
    simp
  have hx : (R ++ y :: (N₂ ++ [k])).getD R.length 0 = y :=
    getD_append_length R y (N₂ ++ [k]) 0
  have hy : (R ++ y :: (N₂ ++ [k])).getD (R ++ y :: N₂).length 0 = k := by
    rw [hshape]
    exact getD_append_length (R ++ y :: N₂) k [] 0
  have hset₁ : (R ++ y :: (N₂ ++ [k])).set R.length k = R ++ k :: (N₂ ++ [k]) :=
    set_append_length R y (N₂ ++ [k]) k
  have hlen₂ : (R ++ y :: N₂).length = (R ++ k :: N₂).length := by simp
  have hset₂ : (R ++ k :: (N₂ ++ [k])).set (R ++ y :: N₂).length y
      = R ++ k :: (N₂ ++ [y]) := by
    have hshape₂ : R ++ k :: (N₂ ++ [k]) = (R ++ k :: N₂) ++ k :: [] := by
      simp
    rw [hshape₂, hlen₂, set_append_length (R ++ k :: N₂) k [] y]
    simp
  simp only [swapIdx, hb, hx, hy, hset₁, hset₂]

/-! ### The loop invariant of the first pass -/

/-- Invariant of the first loop after `k` iterations: the `nodes` slice
splits into a root block `R` (of length `nroots`) followed by a
non-root block `N`, it is a permutation of the indices processed so
far, `rootValue` is the sum over the roots seen, and `nroots` counts
them. -/
def Pass1Inv (g : List GNode) (k : Nat) (st : Pass1State) : Prop :=
  ∃ R N, st.nodes = R ++ N ∧ R.length = st.nroots ∧
    (∀ x ∈ R, isRoot (gnodeAt g x) = true) ∧
    (∀ x ∈ N, isRoot (gnodeAt g x) = false) ∧
    st.nodes.Perm (List.range k) ∧
    st.rootValue = rootSumUpTo g k ∧
    st.nroots = (rootIdsUpTo g k).length

theorem pass1Step_eq_neg (g : List GNode) (st : Pass1State) (i : Nat)
    (h : isRoot (gnodeAt g i) = false) :
    pass1Step g st i = { st with nodes := st.nodes ++ [i] } := by
  simp [pass1Step, h]

theorem pass1Step_eq_pos (g : List GNode) (st : Pass1State) (i : Nat)
    (h : isRoot (gnodeAt g i) = true) :
    pass1Step g st i =
      { nodes := swapIdx (st.nodes ++ [i]) st.nroots ((st.nodes ++ [i]).length - 1)
        nroots := st.nroots + 1
        rootValue := st.rootValue + (gnodeAt g i).cum } := by
  simp [pass1Step, h]

theorem rootIdsUpTo_succ (g : List GNode) (k : Nat) :
    rootIdsUpTo g (k + 1) =
      rootIdsUpTo g k ++ (if isRoot (gnodeAt g k) then [k] else []) := by
  rw [rootIdsUpTo, rootIdsUpTo, List.range_succ, List.filter_append]
  congr 1
  by_cases h : isRoot (gnodeAt g k) <;> simp [h]

theorem rootSumUpTo_succ (g : List GNode) (k : Nat) :
    rootSumUpTo g (k + 1) =
      rootSumUpTo g k + (if isRoot (gnodeAt g k) then (gnodeAt g k).cum else 0) := by
  rw [rootSumUpTo, rootSumUpTo, rootIdsUpTo_succ, List.map_append, List.sum_append]
  by_cases h : isRoot (gnodeAt g k) <;> simp [h]

theorem pass1Inv_step (g : List GNode) (k : Nat) (st : Pass1State)
    (h : Pass1Inv g k st) : Pass1Inv g (k + 1) (pass1Step g st k) := by
  obtain ⟨R, N, hnodes, hlen, hR, hN, hperm, hval, hcnt⟩ := h
  by_cases hr : isRoot (gnodeAt g k)
  · -- the new node is a root: it is swapped into the root block
    rw [pass1Step_eq_pos g st k hr]
    cases N with
    | nil =>
      have hnR : st.nodes = R := by simpa using hnodes
      have hswap : swapIdx (st.nodes ++ [k]) st.nroots ((st.nodes ++ [k]).length - 1)
          = R ++ [k] := by
        rw [hnR, ← hlen]
        exact swapIdx_last R k
      refine ⟨R ++ [k], [], ?_, ?_, ?_, ?_, ?_, ?_, ?_⟩
      · show swapIdx (st.nodes ++ [k]) st.nroots ((st.nodes ++ [k]).length - 1)
          = (R ++ [k]) ++ []
        rw [hswap, List.append_nil]
      · show (R ++ [k]).length = st.nroots + 1
        simp [hlen]
      · intro x hx
        rcases List.mem_append.mp hx with hx | hx
        · exact hR x hx
        · simp at hx
          exact hx ▸ hr
      · intro x hx
        simp at hx
      · show (swapIdx (st.nodes ++ [k]) st.nroots ((st.nodes ++ [k]).length - 1)).Perm
          (List.range (k + 1))
        rw [hswap, List.range_succ]
        exact List.Perm.append_right [k] (hnR ▸ hperm)
      · show st.rootValue + (gnodeAt g k).cum = rootSumUpTo g (k + 1)
        rw [rootSumUpTo_succ]
        simp [hval, hr]
      · show st.nroots + 1 = (rootIdsUpTo g (k + 1)).length
        rw [rootIdsUpTo_succ]
        simp [hcnt, hr]
    | cons y N₂ =>
      have hswap : swapIdx (st.nodes ++ [k]) st.nroots ((st.nodes ++ [k]).length - 1)
          = R ++ k :: (N₂ ++ [y]) := by
        rw [hnodes, ← hlen]
        have hsh : (R ++ y :: N₂) ++ [k] = R ++ y :: (N₂ ++ [k]) := by simp
        rw [hsh]
        exact swapIdx_partition R N₂ y k
      refine ⟨R ++ [k], N₂ ++ [y], ?_, ?_, ?_, ?_, ?_, ?_, ?_⟩
      · show swapIdx (st.nodes ++ [k]) st.nroots ((st.nodes ++ [k]).length - 1)
          = (R ++ [k]) ++ (N₂ ++ [y])
        rw [hswap]
        simp
      · show (R ++ [k]).length = st.nroots + 1
        simp [hlen]
      · intro x hx
        rcases List.mem_append.mp hx with hx | hx
        · exact hR x hx
        · simp at hx
          exact hx ▸ hr
      · intro x hx
        have hmem : x ∈ y :: N₂ := by
          rcases List.mem_append.mp hx with hx | hx
          · exact List.mem_cons_of_mem y hx
          · simp at hx
            simp [hx]
        exact hN x hmem
      · show (swapIdx (st.nodes ++ [k]) st.nroots ((st.nodes ++ [k]).length - 1)).Perm
          (List.range (k + 1))
        rw [hswap, List.range_succ]
        have h₁ : (R ++ k :: (N₂ ++ [y])).Perm (k :: (R ++ (N₂ ++ [y]))) :=
          List.perm_middle
        have h₂ : (N₂ ++ [y]).Perm (y :: N₂) := by
          simp [List.perm_middle]
        have h₃ : (k :: (R ++ (N₂ ++ [y]))).Perm (k :: (R ++ y :: N₂)) :=
          List.Perm.cons k (List.Perm.append_left R h₂)
        have h₄ : (k :: (R ++ y :: N₂)).Perm (k :: List.range k) :=
          List.Perm.cons k (hnodes ▸ hperm)
        have h₅ : (k :: List.range k).Perm (List.range k ++ [k]) := by
          simpa using (@List.perm_middle Nat k (List.range k) []).symm
        exact (((h₁.trans h₃).trans h₄).trans h₅)
      · show st.rootValue + (gnodeAt g k).cum = rootSumUpTo g (k + 1)
        rw [rootSumUpTo_succ]
        simp [hval, hr]
      · show st.nroots + 1 = (rootIdsUpTo g (k + 1)).length
        rw [rootIdsUpTo_succ]
        simp [hcnt, hr]
  · -- not a root: appended to the tail block
    rw [pass1Step_eq_neg g st k (by simpa using hr)]
    refine ⟨R, N ++ [k], by simp [hnodes], hlen, hR, ?_, ?_, ?_, ?_⟩
    · intro x hx
      rcases List.mem_append.mp hx with hx | hx
      · exact hN x hx
      · simp at hx
        subst hx
        simpa using hr
    · show (st.nodes ++ [k]).Perm (List.range (k + 1))
      rw [List.range_succ]
      exact List.Perm.append_right [k] hperm
    · show st.rootValue = rootSumUpTo g (k + 1)
      rw [rootSumUpTo_succ]
      simp [hval, hr]
    · show st.nroots = (rootIdsUpTo g (k + 1)).length
      rw [rootIdsUpTo_succ]
      simp [hcnt, hr]

theorem pass1_inv (g : List GNode) :
    ∀ k, Pass1Inv g k ((List.range k).foldl (pass1Step g) ⟨[], 0, 0⟩)
  | 0 => ⟨[], [], by simp, rfl, by simp, by simp, by simp [Pass1State.nodes], rfl, rfl⟩
  | (k + 1) => by
    rw [List.range_succ, List.foldl_append, List.foldl_cons, List.foldl_nil]
    exact pass1Inv_step g k _ (pass1_inv g k)

/-! ### Consequences of the invariant for the finished first pass -/

theorem pass1_eq_fold (g : List GNode) :
    pass1 g = (List.range g.length).foldl (pass1Step g) ⟨[], 0, 0⟩ := rfl

theorem pass1_perm (g : List GNode) :
    (pass1 g).nodes.Perm (List.range g.length) := by
  obtain ⟨R, N, hnodes, hlen, hR, hN, hperm, hval, hcnt⟩ := pass1_inv g g.length
  exact hperm

theorem pass1_rootValue (g : List GNode) :
    (pass1 g).rootValue = rootSum g := by
  obtain ⟨R, N, hnodes, hlen, hR, hN, hperm, hval, hcnt⟩ := pass1_inv g g.length
  exact hval

theorem pass1_nroots (g : List GNode) :
    (pass1 g).nroots = (rootIds g).length := by
  obtain ⟨R, N, hnodes, hlen, hR, hN, hperm, hval, hcnt⟩ := pass1_inv g g.length
  exact hcnt

/-- The contiguous slice `nodes[0:nroots]` left by the swap partition is
a permutation of the set of root indices of the graph. -/
theorem pass1_take_perm (g : List GNode) :
    ((pass1 g).nodes.take (pass1 g).nroots).Perm (rootIds g) := by
  obtain ⟨R, N, hnodes, hlen, hR, hN, hperm, hval, hcnt⟩ := pass1_inv g g.length
  rw [← pass1_eq_fold] at hnodes hlen hperm
  have htake : (pass1 g).nodes.take (pass1 g).nroots = R := by
    rw [hnodes, ← hlen, List.take_left]
  have hfR : List.filter (fun i => isRoot (gnodeAt g i)) R = R :=
    List.filter_eq_self.mpr hR
  have hfN : List.filter (fun i => isRoot (gnodeAt g i)) N = [] :=
    List.filter_eq_nil_iff.mpr (by intro a ha; simp [hN a ha])
  have hfilter : List.filter (fun i => isRoot (gnodeAt g i)) (pass1 g).nodes = R := by
    rw [hnodes, List.filter_append, hfR, hfN, List.append_nil]
  have hp : (List.filter (fun i => isRoot (gnodeAt g i)) (pass1 g).nodes).Perm
      (List.filter (fun i => isRoot (gnodeAt g i)) (List.range g.length)) :=
    List.Perm.filter _ hperm
  rw [hfilter] at hp
  rw [htake]
  exact hp

/-! ### The tree-node store produced by the two passes -/

/-- The tree node for a graph node after the second pass: the node of
the first pass with its children filled in from the outbound edges
through the identity node map. -/
def finalTreeNode (cfg : FlameCfg) (n : GNode) : TreeNode :=
  { mkTreeNode cfg n with Children := n.outEdges }

theorem addChildren_eq (t : TreeNode) (cs : List Nat) :
    addChildren t cs = { t with Children := t.Children ++ cs } := by
  induction cs generalizing t with
  | nil => simp [addChildren]
  | cons c cs ih =>
    rw [addChildren, List.foldl_cons, ← addChildren, ih]
    simp [addChild]

theorem pass2_map_getD (cfg : FlameCfg) (g : List GNode) (i : Nat) :
    (pass2 g (g.map (mkTreeNode cfg))).getD i default =
      if i < g.length then finalTreeNode cfg (gnodeAt g i) else default := by
  induction g generalizing i with
  | nil => simp [pass2]
  | cons n g ih =>
    cases i with
    | zero =>
      simp [pass2, addChildren_eq, finalTreeNode, gnodeAt, mkTreeNode]
    | succ i =>
      have hstep : pass2 (n :: g) ((n :: g).map (mkTreeNode cfg))
          = addChildren (mkTreeNode cfg n) n.outEdges :: pass2 g (g.map (mkTreeNode cfg)) := by
        simp [pass2]
      rw [hstep, List.getD_cons_succ, ih]
      have hg : gnodeAt (n :: g) (i + 1) = gnodeAt g i := by
        simp [gnodeAt]
      rw [hg]
      by_cases h : i < g.length
      · simp [h, Nat.succ_lt_succ h]
      · simp [h, fun hc => h (Nat.lt_of_succ_lt_succ hc)]

theorem flamegraphTree_store (cfg : FlameCfg) (g : List GNode) :
    (flamegraphTree cfg g).store = pass2 g (g.map (mkTreeNode cfg)) := rfl

theorem flamegraphTree_store_length (cfg : FlameCfg) (g : List GNode) :
    (flamegraphTree cfg g).store.length = g.length := by
  rw [flamegraphTree_store, pass2, List.length_zipWith]
  simp

theorem flamegraphTree_store_getD (cfg : FlameCfg) (g : List GNode) (i : Nat) :
    (flamegraphTree cfg g).store.getD i default =
      if i < g.length then finalTreeNode cfg (gnodeAt g i) else default := by
  rw [flamegraphTree_store]
  exact pass2_map_getD cfg g i

theorem flamegraphTree_root (cfg : FlameCfg) (g : List GNode) :
    (flamegraphTree cfg g).root =
      { Name := "root"
        FullName := "root"
        Cum := (pass1 g).rootValue
        CumFormat := cfg.formatValue (pass1 g).rootValue
        Percent := trimSpace (cfg.percentage (pass1 g).rootValue cfg.total)
        Children := (pass1 g).nodes.take (pass1 g).nroots } := rfl

/-! ### Whitespace trimming -/

/-- A string with no leading and no trailing whitespace. -/
def noSurroundingSpace (s : String) : Prop :=
  (∀ c, s.data.head? = some c → isSpaceChar c = false) ∧
  (∀ c, s.data.getLast? = some c → isSpaceChar c = false)

theorem head?_dropWhile_false {α : Type} (p : α → Bool) :
    ∀ (l : List α) (c : α), (l.dropWhile p).head? = some c → p c = false := by
  intro l
  induction l with
  | nil => intro c hc; simp [List.dropWhile] at hc
  | cons a l ih =>
    intro c hc
    by_cases hp : p a
    · rw [List.dropWhile_cons_of_pos hp] at hc
      exact ih c hc
    · rw [List.dropWhile_cons_of_neg hp] at hc
      simp at hc
      rw [← hc]
      simpa using hp

/-- The result of `strings.TrimSpace` has no leading and no trailing
whitespace, for every input string. -/
theorem trimSpace_noSurroundingSpace (s : String) :
    noSurroundingSpace (trimSpace s) := by
  constructor
  · intro c hc
    have hdata : (trimSpace s).data
        = (((s.data.dropWhile isSpaceChar).reverse.dropWhile isSpaceChar).reverse) := rfl
    rw [hdata, List.head?_reverse] at hc
    obtain ⟨t, ht⟩ :=
      @List.dropWhile_suffix Char ((s.data.dropWhile isSpaceChar).reverse) isSpaceChar
    have hts : (t ++ ((s.data.dropWhile isSpaceChar).reverse.dropWhile isSpaceChar)).getLast?
        = some c := by
      rw [List.getLast?_append, hc, Option.or_some]
    rw [ht, List.getLast?_reverse] at hts
    exact head?_dropWhile_false isSpaceChar _ c hts
  · intro c hc
    have hdata : (trimSpace s).data
        = (((s.data.dropWhile isSpaceChar).reverse.dropWhile isSpaceChar).reverse) := rfl
    rw [hdata, List.getLast?_reverse] at hc
    exact head?_dropWhile_false isSpaceChar _ c hc

/-! ### Claims about the tree construction -/

/-- C1: for every input graph, the tree built by the flame-graph handler
holds exactly one tree node per graph node — the store entry at the same
index, which is the identity node map — plus exactly one synthetic root,
so the total tree-node count is the graph-node count plus one; moreover
the partitioned node list holds every store index exactly once. -/
theorem flamegraph_nodeCount (cfg : FlameCfg) (g : List GNode) :
    (flamegraphTree cfg g).nodeCount = g.length + 1 ∧
    (flamegraphTree cfg g).store.length = g.length ∧
    (pass1 g).nodes.Perm (List.range g.length) := by
  refine ⟨?_, flamegraphTree_store_length cfg g, pass1_perm g⟩
  rw [FlameTree.nodeCount, flamegraphTree_store_length]

/-- C2: the synthetic root is named "root" (both name fields), its
cumulative value is the sum of the cumulative values of exactly the
graph nodes with an empty inbound-edge set, its children are exactly the
tree nodes of those root graph nodes (the contiguous prefix left by the
in-place swap partition, as a permutation of the root-index list), and
for a single-root graph its cumulative value is that root's value. -/
theorem flamegraph_root_spec (cfg : FlameCfg) (g : List GNode) :
    (flamegraphTree cfg g).root.Name = "root" ∧
    (flamegraphTree cfg g).root.FullName = "root" ∧
    (flamegraphTree cfg g).root.Cum = rootSum g ∧
    ((flamegraphTree cfg g).root.Children).Perm (rootIds g) ∧
    (∀ i : Nat, rootIds g = [i] →
      (flamegraphTree cfg g).root.Cum = (gnodeAt g i).cum) := by
  refine ⟨rfl, rfl, ?_, ?_, ?_⟩
  · show (pass1 g).rootValue = rootSum g
    exact pass1_rootValue g
  · show ((pass1 g).nodes.take (pass1 g).nroots).Perm (rootIds g)
    exact pass1_take_perm g
  · intro i hi
    show (pass1 g).rootValue = (gnodeAt g i).cum
    rw [pass1_rootValue g]
    show ((rootIds g).map (fun i => (gnodeAt g i).cum)).sum = (gnodeAt g i).cum
    rw [hi]
    simp

/-- The FullName stored for any index equals the full name of the graph
node at that index (out-of-range indices give the default on both
sides). -/
theorem store_fullName (cfg : FlameCfg) (g : List GNode) (e : Nat) :
    ((flamegraphTree cfg g).store.getD e default).FullName = (gnodeAt g e).fullName := by
  rw [flamegraphTree_store_getD]
  by_cases h : e < g.length
  · simp [h, finalTreeNode, mkTreeNode]
  · rw [if_neg h, gnodeAt, List.getD_eq_default _ _ (Nat.le_of_not_lt h)]
    rfl

/-- C3: every tree node has exactly one child per outbound edge of its
graph node — the child list is the outbound-edge list mapped through the
identity node map, so the lengths agree — and the child at position j
carries the full name of the j-th outbound-edge target. -/
theorem flamegraph_children_spec (cfg : FlameCfg) (g : List GNode) (i : Nat) :
    ((flamegraphTree cfg g).store.getD i default).Children = (gnodeAt g i).outEdges ∧
    ((flamegraphTree cfg g).store.getD i default).Children.length
        = (gnodeAt g i).outEdges.length ∧
    (∀ j : Nat,
      ((flamegraphTree cfg g).store.getD ((gnodeAt g i).outEdges.getD j 0) default).FullName
        = (gnodeAt g ((gnodeAt g i).outEdges.getD j 0)).fullName) := by
  have hkids : ((flamegraphTree cfg g).store.getD i default).Children
      = (gnodeAt g i).outEdges := by
    rw [flamegraphTree_store_getD]
    by_cases h : i < g.length
    · simp [h, finalTreeNode]
    · rw [if_neg h, gnodeAt, List.getD_eq_default _ _ (Nat.le_of_not_lt h)]
      rfl
  exact ⟨hkids, by rw [hkids], fun j => store_fullName cfg g _⟩

/-- C5: on the empty graph (zero nodes) the construction terminates and
yields a synthetic root with zero cumulative value, an empty child list,
and an empty store. -/
theorem flamegraph_empty_graph (cfg : FlameCfg) :
    (flamegraphTree cfg []).root.Cum = 0 ∧
    (flamegraphTree cfg []).root.Children = [] ∧
    (flamegraphTree cfg []).store = [] :=
  ⟨rfl, rfl, rfl⟩

/-- C4: every tree node of the output — the synthetic root included —
carries a `Percent` field with no leading or trailing whitespace, for
every configuration (hence for every percentage formatter, every
cumulative value, and in particular for `Total = 0`, on which the
construction is total and does not fail). -/
theorem flamegraph_percent_trimmed (cfg : FlameCfg) (g : List GNode) (t : TreeNode)
    (h : t = (flamegraphTree cfg g).root ∨ t ∈ (flamegraphTree cfg g).store) :
    noSurroundingSpace t.Percent := by
  rcases h with h | h
  · subst h
    exact trimSpace_noSurroundingSpace _
  · obtain ⟨n, hn, hEq⟩ := List.mem_iff_getElem.mp h
    have hng : n < g.length := by
      rw [← flamegraphTree_store_length cfg g]
      exact hn
    have hgetD : (flamegraphTree cfg g).store.getD n default = t := by
      rw [List.getD_eq_getElem _ _ hn]
      exact hEq
    rw [flamegraphTree_store_getD, if_pos hng] at hgetD
    rw [← hgetD]
    exact trimSpace_noSurroundingSpace _

/-- A one-node graph with zero cumulative value, used to exercise the
percentage formatting at `Cumulative = 0` and `Total = 0`. -/
def zeroGraph : List GNode := [⟨"a", "a", 0, [], []⟩]

theorem flamegraph_percent_trimmed_witness :
    noSurroundingSpace ((flamegraphTree (specCfg 0) zeroGraph).root.Percent) :=
  flamegraph_percent_trimmed (specCfg 0) zeroGraph _ (Or.inl rfl)

/-! ### Determinism up to edge-set iteration order (C6) -/

/-- Two node slices describing the same immutable graph as seen by two
runs of the handler: same slice order and per-node data, but the inbound
and outbound edge sets (Go maps, whose iteration order is unspecified)
may be enumerated in different orders. -/
def GraphEquiv (g₁ g₂ : List GNode) : Prop :=
  g₁.length = g₂.length ∧
  ∀ i : Nat,
    (gnodeAt g₁ i).name = (gnodeAt g₂ i).name ∧
    (gnodeAt g₁ i).fullName = (gnodeAt g₂ i).fullName ∧
    (gnodeAt g₁ i).cum = (gnodeAt g₂ i).cum ∧
    ((gnodeAt g₁ i).inEdges).Perm ((gnodeAt g₂ i).inEdges) ∧
    ((gnodeAt g₁ i).outEdges).Perm ((gnodeAt g₂ i).outEdges)

theorem perm_isEmpty_eq {l₁ l₂ : List Nat} (h : l₁.Perm l₂) :
    l₁.isEmpty = l₂.isEmpty := by
  have hlen := h.length_eq
  cases l₁ <;> cases l₂ <;> simp_all

/-- The whole first pass — the swap partition included — depends only on
the per-node root flags and cumulative values, so it is identical for
the two runs. -/
theorem pass1_congr {g₁ g₂ : List GNode} (h : GraphEquiv g₁ g₂) :
    pass1 g₁ = pass1 g₂ := by
  obtain ⟨hlen, hnode⟩ := h
  have hstep : ∀ st i, pass1Step g₁ st i = pass1Step g₂ st i := by
    intro st i
    obtain ⟨-, -, hcum, hin, -⟩ := hnode i
    have hroot : isRoot (gnodeAt g₁ i) = isRoot (gnodeAt g₂ i) := by
      rw [isRoot, isRoot, perm_isEmpty_eq hin]
    simp only [pass1Step]
    rw [hroot, hcum]
  have hfold : ∀ (l : List Nat) (st : Pass1State),
      l.foldl (pass1Step g₁) st = l.foldl (pass1Step g₂) st := by
    intro l
    induction l with
    | nil => intro st; rfl
    | cons a l ih =>
      intro st
      rw [List.foldl_cons, List.foldl_cons, hstep, ih]
  rw [pass1, pass1, hlen, hfold]

/-- The display fields of corresponding store entries agree between the
two runs. -/
theorem store_fields_congr (cfg : FlameCfg) {g₁ g₂ : List GNode}
    (h : GraphEquiv g₁ g₂) (j : Nat) :
    ((flamegraphTree cfg g₁).store.getD j default).Name
        = ((flamegraphTree cfg g₂).store.getD j default).Name ∧
    ((flamegraphTree cfg g₁).store.getD j default).FullName
        = ((flamegraphTree cfg g₂).store.getD j default).FullName ∧
    ((flamegraphTree cfg g₁).store.getD j default).Cum
        = ((flamegraphTree cfg g₂).store.getD j default).Cum ∧
    ((flamegraphTree cfg g₁).store.getD j default).CumFormat
        = ((flamegraphTree cfg g₂).store.getD j default).CumFormat ∧
    ((flamegraphTree cfg g₁).store.getD j default).Percent
        = ((flamegraphTree cfg g₂).store.getD j default).Percent := by
  obtain ⟨hlen, hnode⟩ := h
  obtain ⟨-, hfull, hcum, -, -⟩ := hnode j
  rw [flamegraphTree_store_getD, flamegraphTree_store_getD, ← hlen]
  by_cases hj : j < g₁.length
  · rw [if_pos hj, if_pos hj]
    refine ⟨?_, ?_, ?_, ?_, ?_⟩ <;>
      simp [finalTreeNode, mkTreeNode, hfull, hcum]
  · rw [if_neg hj, if_neg hj]
    exact ⟨rfl, rfl, rfl, rfl, rfl⟩

/-- C6: two runs of the tree builder on the same immutable graph — the
edge maps possibly iterated in different orders — produce the same
synthetic root, the same store size (hence node count), identical
display data (names, cumulative values, formatted strings) at every
store index, and per-node child lists that agree as multisets of store
indices and of (name, cumulative value) pairs; only the positional
order of siblings may differ. -/
theorem flamegraph_deterministic (cfg : FlameCfg) (g₁ g₂ : List GNode)
    (h : GraphEquiv g₁ g₂) :
    (flamegraphTree cfg g₁).root = (flamegraphTree cfg g₂).root ∧
    (flamegraphTree cfg g₁).store.length = (flamegraphTree cfg g₂).store.length ∧
    (∀ i : Nat,
      ((flamegraphTree cfg g₁).store.getD i default).Name
          = ((flamegraphTree cfg g₂).store.getD i default).Name ∧
      ((flamegraphTree cfg g₁).store.getD i default).Cum
          = ((flamegraphTree cfg g₂).store.getD i default).Cum ∧
      ((flamegraphTree cfg g₁).store.getD i default).CumFormat
          = ((flamegraphTree cfg g₂).store.getD i default).CumFormat ∧
      ((flamegraphTree cfg g₁).store.getD i default).Percent
          = ((flamegraphTree cfg g₂).store.getD i default).Percent ∧
      (((flamegraphTree cfg g₁).store.getD i default).Children).Perm
          (((flamegraphTree cfg g₂).store.getD i default).Children) ∧
      ((((flamegraphTree cfg g₁).store.getD i default).Children).map
          (fun j => (((flamegraphTree cfg g₁).store.getD j default).Name,
                     ((flamegraphTree cfg g₁).store.getD j default).Cum))).Perm
        ((((flamegraphTree cfg g₂).store.getD i default).Children).map
          (fun j => (((flamegraphTree cfg g₂).store.getD j default).Name,
                     ((flamegraphTree cfg g₂).store.getD j default).Cum)))) := by
  obtain ⟨hlen, hnode⟩ := h
  have hpass1 : pass1 g₁ = pass1 g₂ := pass1_congr ⟨hlen, hnode⟩
  refine ⟨?_, ?_, ?_⟩
  · rw [flamegraphTree_root, flamegraphTree_root, hpass1]
  · rw [flamegraphTree_store_length, flamegraphTree_store_length, hlen]
  · intro i
    have hkids : (((flamegraphTree cfg g₁).store.getD i default).Children).Perm
        (((flamegraphTree cfg g₂).store.getD i default).Children) := by
      rw [flamegraphTree_store_getD, flamegraphTree_store_getD, ← hlen]
      by_cases hi : i < g₁.length
      · rw [if_pos hi, if_pos hi]
        obtain ⟨-, -, -, -, hout⟩ := hnode i
        simpa [finalTreeNode] using hout
      · rw [if_neg hi, if_neg hi]
    obtain ⟨hname, hfull, hcum, hfmt, hpct⟩ :=
      store_fields_congr cfg ⟨hlen, hnode⟩ i
    refine ⟨hname, hcum, hfmt, hpct, hkids, ?_⟩
    have hfun : ∀ j : Nat,
        (((flamegraphTree cfg g₁).store.getD j default).Name,
         ((flamegraphTree cfg g₁).store.getD j default).Cum)
          = (((flamegraphTree cfg g₂).store.getD j default).Name,
             ((flamegraphTree cfg g₂).store.getD j default).Cum) := by
      intro j
      obtain ⟨hn, -, hc, -, -⟩ := store_fields_congr cfg ⟨hlen, hnode⟩ j
      rw [hn, hc]
    calc ((((flamegraphTree cfg g₁).store.getD i default).Children).map
            (fun j => (((flamegraphTree cfg g₁).store.getD j default).Name,
                       ((flamegraphTree cfg g₁).store.getD j default).Cum))).Perm
          ((((flamegraphTree cfg g₂).store.getD i default).Children).map
            (fun j => (((flamegraphTree cfg g₁).store.getD j default).Name,
                       ((flamegraphTree cfg g₁).store.getD j default).Cum))) :=
        hkids.map _
      _ = (((flamegraphTree cfg g₂).store.getD i default).Children).map
            (fun j => (((flamegraphTree cfg g₂).store.getD j default).Name,
                       ((flamegraphTree cfg g₂).store.getD j default).Cum)) :=
        List.map_congr_left (fun a _ => hfun a)

/-- First enumeration of a three-node graph A → {B, C}. -/
def gRun1 : List GNode :=
  [⟨"a", "a", 10, [], [1, 2]⟩, ⟨"b", "b", 6, [0], []⟩, ⟨"c", "c", 4, [0], []⟩]

/-- Second enumeration of the same graph: the outbound edge set of A is
iterated in the other order. -/
def gRun2 : List GNode :=
  [⟨"a", "a", 10, [], [2, 1]⟩, ⟨"b", "b", 6, [0], []⟩, ⟨"c", "c", 4, [0], []⟩]

theorem gRun_equiv : GraphEquiv gRun1 gRun2 := by
  refine ⟨rfl, ?_⟩
  intro i
  match i with
  | 0 => exact ⟨rfl, rfl, rfl, List.Perm.refl _, by decide⟩
  | 1 => exact ⟨rfl, rfl, rfl, List.Perm.refl _, List.Perm.refl _⟩
  | 2 => exact ⟨rfl, rfl, rfl, List.Perm.refl _, List.Perm.refl _⟩
  | (n + 3) =>
    have h₁ : gnodeAt gRun1 (n + 3) = default := by
      rw [gnodeAt]
      exact List.getD_eq_default _ _ (Nat.le_add_left 3 n)
    have h₂ : gnodeAt gRun2 (n + 3) = default := by
      rw [gnodeAt]
      exact List.getD_eq_default _ _ (Nat.le_add_left 3 n)
    rw [h₁, h₂]
    exact ⟨rfl, rfl, rfl, List.Perm.refl _, List.Perm.refl _⟩

theorem flamegraph_deterministic_witness :
    (flamegraphTree (specCfg 10) gRun1).root = (flamegraphTree (specCfg 10) gRun2).root ∧
    (((flamegraphTree (specCfg 10) gRun1).store.getD 0 default).Children).Perm
        (((flamegraphTree (specCfg 10) gRun2).store.getD 0 default).Children) :=
  ⟨(flamegraph_deterministic (specCfg 10) gRun1 gRun2 gRun_equiv).1,
   ((flamegraph_deterministic (specCfg 10) gRun1 gRun2 gRun_equiv).2.2 0).2.2.2.2.1⟩

/-- A two-node chain a → b with a single root, used as the witness input
for the single-root part of the root-node claim. -/
def gSingle : List GNode :=
  [⟨"a", "a", 10, [], [1]⟩, ⟨"b", "b", 6, [0], []⟩]

theorem flamegraph_root_spec_witness :
    (flamegraphTree (specCfg 10) gSingle).root.Cum = (gnodeAt gSingle 0).cum :=
  (flamegraph_root_spec (specCfg 10) gSingle).2.2.2.2 0 (by decide)

/-! ### The HTTP response-writer model

`net/http` semantics used by `webjson.go`: headers can only be set
before the status line is sent; the first `WriteHeader` fixes the
status and later calls are ignored; `Write` before any `WriteHeader`
implies an implicit `WriteHeader(200)`; `http.Error` sets a text/plain
header, calls `WriteHeader(code)` and writes the message followed by a
newline — so after a successful `WriteHeader(200)` it only appends to
the body.  `uiLog` collects what `ui.options.UI.PrintErr` receives. -/

structure Response where
  headers : List (String × String)
  status : Option Nat
  body : String
  uiLog : List String
deriving Repr, DecidableEq

def Response.writerInit : Response := ⟨[], none, "", []⟩

def statusOK : Nat := 200
def statusInternalServerError : Nat := 500
def statusNotImplemented : Nat := 501

/-- `w.Header().Add(k, v)`: only headers added before the status line is
sent reach the wire. -/
def addHeader (w : Response) (k v : String) : Response :=
  if w.status.isSome then w else { w with headers := w.headers ++ [(k, v)] }

/-- `w.WriteHeader(code)`: the first call wins, later calls are ignored. -/
def writeHeader (w : Response) (code : Nat) : Response :=
  if w.status.isSome then w else { w with status := some code }

/-- `w.Write(...)`: an implicit `WriteHeader(200)` if none was sent yet,
then append to the body. -/
def write (w : Response) (s : String) : Response :=
  let w := if w.status.isSome then w else { w with status := some statusOK }
  { w with body := w.body ++ s }

/-- `http.Error(w, msg, code)`. -/
def httpError (w : Response) (msg : String) (code : Nat) : Response :=
  let w := addHeader w "Content-Type" "text/plain; charset=utf-8"
  let w := writeHeader w code
  write w (msg ++ "\n")

/-- `ui.options.UI.PrintErr(...)`. -/
def printErr (w : Response) (msg : String) : Response :=
  { w with uiLog := w.uiLog ++ [msg] }

/-- Outcome of `json.NewEncoder(w).Encode(v)`: on success the full
serialization is written; on failure some flushed bytes may already
have reached the writer and an error is returned. -/
inductive EncResult where
  | ok (s : String)
  | err (flushed : String) (msg : String)
deriving Repr, DecidableEq

/-- The bytes `Encode` writes in either case. -/
def EncResult.written : EncResult → String
  | .ok s => s
  | .err flushed _ => flushed

/-- The complete serialization, when encoding succeeded. -/
def EncResult.complete : EncResult → Option String
  | .ok s => some s
  | .err _ _ => none

/-- The result of `makeReport` for the top view, as consumed by
`topData`: `report.TextItems(rpt)` returns the ranked entry list and the
legend lines.  Both the report generator and `TextItems` are external
to `src/`, so the handler is embedded over their result. -/
structure TopReport (α : Type) where
  items : List α
  legend : List String

/-- `report.TextItems`: the pair the external report module returns. -/
def TextItems {α : Type} (r : TopReport α) : List α × List String :=
  (r.items, r.legend)

/-- The `topData` handler (lines 14–30 of `webjson.go`).  `rpt` is the
`makeReport` result (`none` means report generation failed with the
diagnostics `errList`), and `enc` is the JSON encoder applied to the
value passed to `Encode`. -/
def topData {α : Type} (rpt : Option (TopReport α)) (errList : List String)
    (enc : List α → EncResult) : Response :=
  let w := Response.writerInit
  match rpt with
  | none =>
    let w := printErr w (String.intercalate ";" errList)
    httpError w ("error genereating report" ++ String.intercalate ";" errList)
      statusInternalServerError
  | some r =>
    let top := (TextItems r).1
    let w := addHeader w "Content-Type" "application/json"
    let w := writeHeader w statusOK
    match enc top with
    | .ok s => write w s
    | .err flushed m =>
      let w := write w flushed
      let w := httpError w "error serializing top" statusInternalServerError
      printErr w m

/-- The `makeReport` + `report.GetDOT` result consumed by
`flamegraphData`: the node slice and the formatting configuration. -/
structure FlameReport where
  g : List GNode
  cfg : FlameCfg

/-- The `flamegraphData` handler (lines 32–97 of `webjson.go`): report
failure check, tree construction, then JSON marshalling of the root
node. -/
def flamegraphData (rpt : Option FlameReport) (errList : List String)
    (enc : FlameTree → EncResult) : Response :=
  let w := Response.writerInit
  match rpt with
  | none =>
    let w := printErr w (String.intercalate ";" errList)
    httpError w ("error genereating report" ++ String.intercalate ";" errList)
      statusInternalServerError
  | some r =>
    let t := flamegraphTree r.cfg r.g
    let w := addHeader w "Content-Type" "application/json"
    let w := writeHeader w statusOK
    match enc t with
    | .ok s => write w s
    | .err flushed m =>
      let w := write w flushed
      let w := httpError w "error serializing flame graph" statusInternalServerError
      printErr w m

/-- The `dotsvg` handler (lines 99–122 of `webjson.go`).  `rpt` carries
the dot-format text produced by the external `report.GetDOT` +
`graph.ComposeDot` pipeline (`none` means report generation failed, a
case `makeReport` has already reported); `render` is `dotToSvg`, the
external Graphviz invocation, fallible with an error message. -/
def dotsvg (rpt : Option String) (errList : List String)
    (render : String → Except String String) : Response :=
  let w := Response.writerInit
  match rpt with
  | none => printErr w (String.intercalate ";" errList)
  | some dot =>
    match render dot with
    | .error e =>
      let w := httpError w "Could not execute dot; may need to install graphviz."
        statusNotImplemented
      printErr w ("Failed to execute dot. Is Graphviz installed?\n" ++ e)
    | .ok svg =>
      let w := addHeader w "Content-Type" "image/svg+xml"
      let w := writeHeader w statusOK
      write w svg

/-! ### Claims about the handlers -/

/-- C7: when report generation fails (nil report), both the flat view
and the flame-graph view answer with status 500 whose message is the
fixed prefix text followed by all diagnostic strings joined by ";", and
no further processing happens: the response is independent of the
encoder, and no body other than that error line is written. -/
theorem report_failure_response {α : Type} (errList : List String)
    (encT : List α → EncResult) (encF : FlameTree → EncResult) :
    (topData none errList encT).status = some statusInternalServerError ∧
    (topData none errList encT).body
        = "error genereating report" ++ String.intercalate ";" errList ++ "\n" ∧
    (∀ encT₂ : List α → EncResult,
      topData none errList encT₂ = topData none errList encT) ∧
    (flamegraphData none errList encF).status = some statusInternalServerError ∧
    (flamegraphData none errList encF).body
        = "error genereating report" ++ String.intercalate ";" errList ++ "\n" ∧
    (∀ encF₂ : FlameTree → EncResult,
      flamegraphData none errList encF₂ = flamegraphData none errList encF) := by
  refine ⟨rfl, ?_, fun _ => rfl, rfl, ?_, fun _ => rfl⟩ <;>
    simp [topData, flamegraphData, httpError, addHeader, writeHeader, write,
      printErr, Response.writerInit, String.append_assoc]

/-- C8 (amended) : generation failure gives a 500 error and no success
body; a successful encode gives status 200 with exactly the complete
serialization as body; a failing encode happens after the 200 status
line was already sent, so the response keeps the success status and its
body is the encoder's flushed partial bytes followed by the error
message — success-status partial output is emitted on that path. -/
theorem handler_output_discipline {α : Type} (rpt : TopReport α) (frpt : FlameReport)
    (errList : List String) (encT : List α → EncResult) (encF : FlameTree → EncResult) :
    (topData (none : Option (TopReport α)) errList encT).status
        = some statusInternalServerError ∧
    (∀ s, encT (TextItems rpt).1 = .ok s →
      (topData (some rpt) errList encT).status = some statusOK ∧
      (topData (some rpt) errList encT).body = s) ∧
    (∀ flushed m, encT (TextItems rpt).1 = .err flushed m →
      (topData (some rpt) errList encT).status = some statusOK ∧
      (topData (some rpt) errList encT).body
          = flushed ++ "error serializing top" ++ "\n") ∧
    (∀ s, encF (flamegraphTree frpt.cfg frpt.g) = .ok s →
      (flamegraphData (some frpt) errList encF).status = some statusOK ∧
      (flamegraphData (some frpt) errList encF).body = s) ∧
    (∀ flushed m, encF (flamegraphTree frpt.cfg frpt.g) = .err flushed m →
      (flamegraphData (some frpt) errList encF).status = some statusOK ∧
      (flamegraphData (some frpt) errList encF).body
          = flushed ++ "error serializing flame graph" ++ "\n") := by
  refine ⟨rfl, ?_, ?_, ?_, ?_⟩
  · intro s hs
    constructor <;>
      simp [topData, hs, httpError, addHeader, writeHeader, write, printErr,
        Response.writerInit]
  · intro flushed m hm
    constructor <;>
      simp [topData, hm, httpError, addHeader, writeHeader, write, printErr,
        Response.writerInit, String.append_assoc]
  · intro s hs
    constructor <;>
      simp [flamegraphData, hs, httpError, addHeader, writeHeader, write, printErr,
        Response.writerInit]
  · intro flushed m hm
    constructor <;>
      simp [flamegraphData, hm, httpError, addHeader, writeHeader, write, printErr,
        Response.writerInit, String.append_assoc]

/-- The item list of the counterexample report. -/
def topReportW : TopReport String := ⟨["x"], []⟩

/-- An encoder run that fails after flushing partial bytes, as
`json.Encoder.Encode` may. -/
def topBadEnc : List String → EncResult := fun _ => EncResult.err "PARTIAL" "boom"

/-- C8 counterexample: with a valid report and an encoder that fails
after flushing partial output, `topData` answers with the success
status 200 and a body consisting of the partial bytes plus the error
message — neither a complete valid structure under a success status nor
a server-error status, contradicting the claim as stated. -/
theorem serialization_partial_output_cex :
    (topData (some topReportW) [] topBadEnc).status = some statusOK ∧
    (topData (some topReportW) [] topBadEnc).body
        = "PARTIAL" ++ "error serializing top" ++ "\n" ∧
    (topBadEnc (TextItems topReportW).1).complete = none ∧
    ¬ ((∃ s, (topBadEnc (TextItems topReportW).1).complete = some s ∧
          (topData (some topReportW) [] topBadEnc).body = s) ∨
       (topData (some topReportW) [] topBadEnc).status
          = some statusInternalServerError) := by
  refine ⟨rfl, by decide, rfl, ?_⟩
  rintro (⟨s, hs, -⟩ | h)
  · exact Option.noConfusion hs
  · exact absurd h (by decide)

theorem handler_output_discipline_witness :
    (topData (some topReportW) [] topBadEnc).status = some statusOK ∧
    (topData (some topReportW) [] topBadEnc).body
        = "PARTIAL" ++ "error serializing top" ++ "\n" :=
  (handler_output_discipline topReportW ⟨[], specCfg 0⟩ [] topBadEnc
    (fun _ => EncResult.ok "")).2.2.1 "PARTIAL" "boom" rfl

/-- C9: when the external dot renderer fails, the svg handler answers
with status 501 (Not Implemented) — distinct from the generic 500 of
report-generation failure and from success — with a message naming the
dot/graphviz tool, a text/plain header only (no image content type) and
no image bytes in the body. -/
theorem dotsvg_renderer_failure (dot : String) (errList : List String)
    (render : String → Except String String) (e : String)
    (h : render dot = .error e) :
    (dotsvg (some dot) errList render).status = some statusNotImplemented ∧
    statusNotImplemented ≠ statusInternalServerError ∧
    statusNotImplemented ≠ statusOK ∧
    (dotsvg (some dot) errList render).body
        = "Could not execute dot; may need to install graphviz." ++ "\n" ∧
    (∃ pre post, (dotsvg (some dot) errList render).body
        = pre ++ "graphviz" ++ post) ∧
    (dotsvg (some dot) errList render).headers
        = [("Content-Type", "text/plain; charset=utf-8")] := by
  have hbody : (dotsvg (some dot) errList render).body
      = "Could not execute dot; may need to install graphviz." ++ "\n" := by
    simp [dotsvg, h, httpError, addHeader, writeHeader, write, printErr,
      Response.writerInit]
  refine ⟨?_, by decide, by decide, hbody, ?_, ?_⟩
  · simp [dotsvg, h, httpError, addHeader, writeHeader, write, printErr,
      Response.writerInit]
  · refine ⟨"Could not execute dot; may need to install ", ".\n", ?_⟩
    rw [hbody]
    decide
  · simp [dotsvg, h, httpError, addHeader, writeHeader, write, printErr,
      Response.writerInit]

theorem dotsvg_renderer_failure_witness :
    (dotsvg (some "digraph G") [] (fun _ => Except.error "dot not found")).status
      = some statusNotImplemented :=
  (dotsvg_renderer_failure "digraph G" [] (fun _ => Except.error "dot not found")
    "dot not found" rfl).1

/-- C10: the flat-view response is built from the first component of
`report.TextItems` alone: two reports with the same item list and
different legends give byte-identical responses, and the successful
body is exactly the encoding of the item list (on encoder failure the
flushed bytes plus the error message). -/
theorem topData_encodes_items_only {α : Type} (items : List α)
    (legend₁ legend₂ : List String) (errList : List String)
    (enc : List α → EncResult) :
    topData (some ⟨items, legend₁⟩) errList enc
        = topData (some ⟨items, legend₂⟩) errList enc ∧
    (topData (some ⟨items, legend₁⟩) errList enc).body
        = (match enc items with
            | .ok s => s
            | .err flushed _ => flushed ++ "error serializing top" ++ "\n") := by
  constructor
  · rfl
  · cases henc : enc items with
    | ok s =>
      simp [topData, TextItems, henc, httpError, addHeader, writeHeader, write,
        printErr, Response.writerInit]
    | err flushed m =>
      simp [topData, TextItems, henc, httpError, addHeader, writeHeader, write,
        printErr, Response.writerInit, String.append_assoc]
